import Mathlib

/-
  Shallow embedding of `jugaadu_translator.py`, a Streamlit phrase-translation
  store, together with proofs about its data handling:

  * Python strings are modelled through their character lists; `str.strip()`
    and `str.lower()` become `pyStrip` and `pyLower`.
  * Python dicts (insertion ordered, unique keys) are modelled as association
    lists with `dictGet` (lookup) and `dictSet` (assignment, overwriting in
    place).
  * The JSON persistence layer (`json.dump(..., ensure_ascii=False, indent=4)`
    / `json.load`) is modelled character by character for the fragment the
    program actually writes: one object whose keys and values are strings.
  * The audio-contribution handler (mode 3 of the app) is modelled as a pure
    function from the results of the external services to the effects the
    handler performs.
-/

namespace JugaaduTranslator

/-! ## Python string primitives -/

/-- Whitespace as recognised by Python `str.strip()` (ASCII part). -/
def isPySpace (c : Char) : Bool :=
  c = ' ' || c = '\t' || c = '\n' || c = '\r' || c = '\x0b' || c = '\x0c'

/-- Python `s.strip()`: drop leading and trailing whitespace. -/
def pyStrip (s : String) : String :=
  ⟨(((s.data.dropWhile isPySpace).reverse.dropWhile isPySpace).reverse)⟩

/-- Python `s.lower()` (ASCII case mapping). -/
def pyLower (s : String) : String :=
  ⟨s.data.map Char.toLower⟩

/-- Python `s.split(sep)` for a one-character separator: always at least one
    (possibly empty) piece. -/
def pySplitChar (sep : Char) : List Char → List (List Char)
  | [] => [[]]
  | c :: rest =>
    if c = sep then [] :: pySplitChar sep rest
    else
      match pySplitChar sep rest with
      | [] => [[c]]
      | h :: t => (c :: h) :: t

/-- Python `s.replace(old, "")` for non-empty `old`: remove every
    left-to-right, non-overlapping occurrence.  Fuel makes the recursion
    structural; one unit is spent per character of the input. -/
def pyRemoveAux (old : List Char) : Nat → List Char → List Char
  | _, [] => []
  | 0, l => l
  | fuel + 1, c :: rest =>
    if old.isPrefixOf (c :: rest) then
      pyRemoveAux old fuel ((c :: rest).drop old.length)
    else c :: pyRemoveAux old fuel rest

def pyRemove (old : String) (l : List Char) : List Char :=
  pyRemoveAux old.data l.length l

/-! ## Python dicts as insertion-ordered association lists -/

/-- Python `d.get(k)` / `d[k]`: the value stored under `k`, if any. -/
def dictGet {α : Type} : List (String × α) → String → Option α
  | [], _ => none
  | (k', v) :: rest, k => if k' = k then some v else dictGet rest k

/-- Python `d[k] = v`: overwrite the entry for `k` in place, or append it. -/
def dictSet {α : Type} : List (String × α) → String → α → List (String × α)
  | [], k, v => [(k, v)]
  | (k', v') :: rest, k, v =>
      if k' = k then (k, v) :: rest else (k', v') :: dictSet rest k v

theorem dictGet_dictSet_self {α : Type} (d : List (String × α)) (k : String) (v : α) :
    dictGet (dictSet d k v) k = some v := by
  induction d with
  | nil => simp [dictGet, dictSet]
  | cons p rest ih =>
    obtain ⟨k', v'⟩ := p
    by_cases h : k' = k
    · simp [dictGet, dictSet, h]
    · simp [dictGet, dictSet, h, ih]

theorem dictGet_dictSet_ne {α : Type} (d : List (String × α)) (k k' : String) (v : α)
    (h : k' ≠ k) : dictGet (dictSet d k v) k' = dictGet d k' := by
  induction d with
  | nil => simp [dictGet, dictSet, Ne.symm h]
  | cons p rest ih =>
    obtain ⟨k₀, v₀⟩ := p
    by_cases h₀ : k₀ = k
    · subst h₀
      simp [dictGet, dictSet, Ne.symm h, h]
    · simp only [dictSet, if_neg h₀]
      by_cases h₁ : k₀ = k'
      · simp [dictGet, h₁]
      · simp [dictGet, h₁, ih]

theorem mem_of_dictGet {α : Type} {d : List (String × α)} {k : String} {v : α}
    (h : dictGet d k = some v) : (k, v) ∈ d := by
  induction d with
  | nil => simp [dictGet] at h
  | cons p rest ih =>
    obtain ⟨k', v'⟩ := p
    by_cases hk : k' = k
    · subst hk
      simp [dictGet] at h
      simp [h]
    · simp [dictGet, hk] at h
      exact List.mem_cons_of_mem _ (ih h)

/-! ## Mode 1: translation queries

Lines 139-154 of the source.  Forward direction looks the normalised input up
in `phrases_db`; the reverse direction first builds
`english_to_local_db = {v.lower(): k for k, v in phrases_db.items()}`. -/

/-- Phrase store: maps local phrase to standard English phrase. -/
abbrev Dict := List (String × String)

def forward_not_found : String :=
  "Sorry, I don't know that one yet! You can add it in the 'Contribute' mode."

def reverse_not_found : String :=
  "Sorry, no local equivalent found. Feel free to contribute one!"

/-- The dict comprehension `{v.lower(): k for k, v in phrases_db.items()}`:
    build up a dict by successive assignment, later entries overwriting. -/
def reverseIndex (db : Dict) : Dict :=
  db.foldl (fun acc p => dictSet acc (pyLower p.2) p.1) []

/-- Forward query: `phrases_db.get(user_input.strip().lower(), not_found)`. -/
def query_forward (db : Dict) (text : String) : String :=
  (dictGet db (pyLower (pyStrip text))).getD forward_not_found

/-- Reverse query: same normalisation, looked up in the derived reverse index. -/
def query_reverse (db : Dict) (text : String) : String :=
  (dictGet (reverseIndex db) (pyLower (pyStrip text))).getD reverse_not_found

/-! ## Mode 2: the contribution form

Lines 172-189 of the source.  `if local_phrase and standard_english_phrase:`
is Python truthiness on strings: only the empty string is rejected. -/

structure FormResult where
  db : Dict
  /-- whether `save_database` was invoked (the contribution was persisted) -/
  persisted : Bool
  /-- whether the submission was accepted (success message shown) -/
  accepted : Bool
  deriving Repr, DecidableEq

def contribution_form (db : Dict) (local_phrase standard_english_phrase : String) :
    FormResult :=
  if local_phrase ≠ "" ∧ standard_english_phrase ≠ "" then
    { db := dictSet db (pyLower (pyStrip local_phrase)) (pyStrip standard_english_phrase)
      persisted := true
      accepted := true }
  else
    { db := db, persisted := false, accepted := false }

/-! ## Persistent store: `save_database` / `load_database`

Lines 36-49 of the source.  `save_database` is
`json.dump(data, f, ensure_ascii=False, indent=4)`; `load_database` is
`json.load` guarded by `os.path.exists` and `except JSONDecodeError: return {}`.
The character-level model covers exactly the JSON fragment the program writes:
one object whose keys and values are strings. -/

/-- Lower-case hex digit, as CPython writes in `\uXXXX` escapes. -/
def hexDigit (n : Nat) : Char :=
  if n < 10 then Char.ofNat (48 + n) else Char.ofNat (87 + n)

/-- How CPython's `json.dump` with `ensure_ascii=False` writes one character
    of a string: `"` and `\` and the named control characters get two-character
    escapes, other control characters a `\u00XX` escape, and everything else
    (including all non-ASCII) is written verbatim. -/
def escapeChar (c : Char) : List Char :=
  if c = '\"' then ['\\', '\"']
  else if c = '\\' then ['\\', '\\']
  else if c = '\n' then ['\\', 'n']
  else if c = '\t' then ['\\', 't']
  else if c = '\r' then ['\\', 'r']
  else if c = '\x08' then ['\\', 'b']
  else if c = '\x0c' then ['\\', 'f']
  else if c.toNat < 32 then
    ['\\', 'u', '0', '0', hexDigit (c.toNat / 16), hexDigit (c.toNat % 16)]
  else [c]

/-- A JSON string literal: quote, escaped body, quote. -/
def encString (s : String) : List Char :=
  '\"' :: (s.data.flatMap escapeChar) ++ ['\"']

/-- One member line of the object at `indent=4`: four spaces, key, `: `, value. -/
def entryChars (p : String × String) : List Char :=
  ' ' :: ' ' :: ' ' :: ' ' :: encString p.1 ++ ':' :: ' ' :: encString p.2

/-- The members of a non-empty object, separated by `,\n`. -/
def membersChars : Dict → List Char
  | [] => []
  | [p] => entryChars p
  | p :: rest => entryChars p ++ ',' :: '\n' :: membersChars rest

/-- The file content `json.dump(d, f, ensure_ascii=False, indent=4)` writes. -/
def save_database (d : Dict) : String :=
  match d with
  | [] => ⟨['\x7b', '\x7d']⟩
  | _ => ⟨'\x7b' :: '\n' :: membersChars d ++ '\n' :: '\x7d' :: []⟩

/-- JSON whitespace (`json.load` skips space, tab, newline, carriage return). -/
def isJsonWS (c : Char) : Bool :=
  c = ' ' || c = '\t' || c = '\n' || c = '\r'

def skipWS (cs : List Char) : List Char :=
  cs.dropWhile isJsonWS

/-- Value of one hex digit, upper or lower case. -/
def hexVal (c : Char) : Option Nat :=
  if 48 ≤ c.toNat ∧ c.toNat ≤ 57 then some (c.toNat - 48)
  else if 97 ≤ c.toNat ∧ c.toNat ≤ 102 then some (c.toNat - 87)
  else if 65 ≤ c.toNat ∧ c.toNat ≤ 70 then some (c.toNat - 55)
  else none

/-- Value of a four-digit hex escape. -/
def hex4 (a b c d : Char) : Option Nat :=
  match hexVal a, hexVal b, hexVal c, hexVal d with
  | some ha, some hb, some hc, some hd => some (((ha * 16 + hb) * 16 + hc) * 16 + hd)
  | _, _, _, _ => none

/-- The two-character escapes accepted by the JSON scanner. -/
def unescape1 (c : Char) : Option Char :=
  if c = '\"' then some '\"'
  else if c = '\\' then some '\\'
  else if c = '/' then some '/'
  else if c = 'n' then some '\n'
  else if c = 't' then some '\t'
  else if c = 'r' then some '\r'
  else if c = 'b' then some '\x08'
  else if c = 'f' then some '\x0c'
  else none

/-- Scan the body of a JSON string literal up to the closing quote, undoing
    escapes.  Fuel bounds the recursion; one unit is spent per decoded
    character, so `input length + 1` always suffices. -/
def decodeBody : Nat → List Char → Option (List Char × List Char)
  | 0, _ => none
  | _ + 1, [] => none
  | fuel + 1, c :: cs =>
    if c = '\"' then some ([], cs)
    else if c = '\\' then
      match cs with
      | [] => none
      | e :: cs2 =>
        if e = 'u' then
          match cs2 with
          | a :: b :: c3 :: d :: cs3 =>
            match hex4 a b c3 d with
            | some n => (decodeBody fuel cs3).map fun p => (Char.ofNat n :: p.1, p.2)
            | none => none
          | _ => none
        else
          match unescape1 e with
          | some u => (decodeBody fuel cs2).map fun p => (u :: p.1, p.2)
          | none => none
    else (decodeBody fuel cs).map fun p => (c :: p.1, p.2)

/-- Parse one JSON string literal. -/
def parseJString : List Char → Option (String × List Char)
  | [] => none
  | c :: cs =>
    if c = '\"' then (decodeBody (cs.length + 1) cs).map fun p => (⟨p.1⟩, p.2)
    else none

/-- Parse the members of a non-empty object, consuming the closing brace.
    Fuel bounds the number of members. -/
def parseMembers : Nat → List Char → Option (Dict × List Char)
  | 0, _ => none
  | fuel + 1, cs =>
    match parseJString (skipWS cs) with
    | none => none
    | some (k, r1) =>
      match skipWS r1 with
      | [] => none
      | c :: r3 =>
        if c = ':' then
          match parseJString (skipWS r3) with
          | none => none
          | some (v, r4) =>
            match skipWS r4 with
            | [] => none
            | c2 :: r5 =>
              if c2 = ',' then
                match parseMembers fuel r5 with
                | some (rest, r6) => some ((k, v) :: rest, r6)
                | none => none
              else if c2 = '\x7d' then some ([(k, v)], r5)
              else none
        else none

/-- Parse a whole document consisting of one string-to-string object,
    requiring nothing but whitespace after it (as `json.load` does). -/
def parseTopLevel (cs : List Char) : Option Dict :=
  match skipWS cs with
  | [] => none
  | c :: r1 =>
    if c = '\x7b' then
      match skipWS r1 with
      | [] => none
      | c2 :: r2 =>
        if c2 = '\x7d' then (if skipWS r2 = [] then some [] else none)
        else
          match parseMembers (r1.length + 1) r1 with
          | some (d, r2') => if skipWS r2' = [] then some d else none
          | none => none
    else none

/-- `load_database`: `none` models a missing file (`os.path.exists` false);
    an unparsable file is the `json.JSONDecodeError` branch.  Both return
    the empty dict. -/
def load_database (file : Option String) : Dict :=
  match file with
  | none => []
  | some s => (parseTopLevel s.data).getD []

/-! ## Remote reconciler -/

/-- A row of the remote ledger: local phrase, standard translation,
    timestamp, location string. -/
structure RemoteRow where
  phrase : String
  translation : String
  timestamp : String
  locationText : String
  deriving Repr, DecidableEq

/-- Modelled from the spec: the remote reconciler's merge step is not part of
    `src/jugaadu_translator.py`; per the spec, for each remote row, "if its
    local-phrase key (lowercase) is absent from `local_mapping`, inserts it
    (value = that row's standard translation)", and it "never overwrites a key
    already present locally". -/
def mergeRow (db : Dict) (r : RemoteRow) : Dict :=
  if (dictGet db (pyLower r.phrase)).isSome then db
  else dictSet db (pyLower r.phrase) r.translation

/-- Modelled from the spec: `pull_and_merge` fetches all remote rows and
    folds `mergeRow` over them in order. -/
def pull_and_merge (db : Dict) (rows : List RemoteRow) : Dict :=
  rows.foldl mergeRow db

/-! ## Mode 3: record and contribute

Lines 53-94 and 204-258 of the source.  The external services are modelled by
their results: `Except.error` is a raised exception (or an API refusal),
`Except.ok` the returned payload. -/

/-- Result of `transcribe_audio`: the returned text (`none` is Python `None`)
    and the state the temporary file `audio_contributions/temp_recording.wav`
    is left in. -/
structure TranscribeResult where
  text : Option String
  tempWritten : Bool
  tempRemoved : Bool
  deriving Repr, DecidableEq

/-- `transcribe_audio`: without an API key it returns `None` before touching
    the disk; otherwise it writes the temporary file, calls Whisper, and only
    on success removes the temporary file again. -/
def transcribe_audio (hasKey : Bool) (whisper : Except String String) :
    TranscribeResult :=
  if !hasKey then { text := none, tempWritten := false, tempRemoved := false }
  else
    match whisper with
    | .ok t => { text := some t, tempWritten := true, tempRemoved := true }
    | .error _ => { text := none, tempWritten := true, tempRemoved := false }

/-- `summarize_text_for_title_desc`: strip the model output, split on
    newlines; the first line (with any `"Title: "` removed) is the title, the
    second line (with any `"Description: "` removed) is the description,
    defaulting to the empty string when there is no second line.  Any
    exception yields `(None, None)`. -/
def summarize_text_for_title_desc (hasKey : Bool) (gpt : Except String String) :
    Option String × Option String :=
  if !hasKey then (none, none)
  else
    match gpt with
    | .error _ => (none, none)
    | .ok content =>
      let summary := pyStrip content
      let parts := pySplitChar '\n' summary.data
      let title := pyStrip ⟨pyRemove "Title: " (parts.headD [])⟩
      let descr :=
        match parts with
        | _ :: p1 :: _ => pyStrip ⟨pyRemove "Description: " p1⟩
        | _ => ""
      (some title, some descr)

/-- What `streamlit_geolocation()` returned: `none` is a falsy value
    (Python `None` or an empty dict); coordinates are modelled as integers,
    with Python float truthiness (`0.0` is falsy) kept for the latitude. -/
structure Geo where
  latitude : Option Int
  longitude : Option Int
  deriving Repr, DecidableEq

/-- The truthiness test `location and location.get('latitude')`. -/
def geoTruthy : Option Geo → Bool
  | none => false
  | some g =>
    match g.latitude with
    | none => false
    | some x => x ≠ 0

/-- The record stored under `contribution_<n>` in `contributions_db`. -/
structure ContributionRecord where
  title : String
  descr : String
  transcribed_text : String
  latitude : Int
  longitude : Option Int
  audio_file : String
  timestamp : String
  deriving Repr, DecidableEq

/-- Which user-visible terminal message the handler ends in. -/
inductive Outcome where
  /-- "Transcription failed." -/
  | transcriptionFailed
  /-- "Could not generate a title and description." -/
  | summarizationFailed
  /-- "Could not retrieve location. Please allow location access ..." -/
  | locationMissing
  /-- location captured, save button shown but not pressed -/
  | awaitingSave
  /-- "Your contribution has been saved!" -/
  | saved
  deriving Repr, DecidableEq

/-- Every effect of one run of the `Process Recording` handler. -/
structure PipelineResult where
  contributions : List (String × ContributionRecord)
  /-- whether `save_database(contributions_db, CONTRIBUTIONS_FILE)` ran -/
  persisted : Bool
  /-- timestamped audio artifacts written under `audio_contributions/` -/
  audioFiles : List String
  tempWritten : Bool
  tempRemoved : Bool
  outcome : Outcome
  deriving Repr, DecidableEq

/-- The `Process Recording` handler (lines 207-258): transcribe, summarize,
    gate on `if title and description:` (Python truthiness: `None` and the
    empty string both fail), gate on geolocation, and on `Save Contribution`
    write the timestamped audio file and append the metadata record. -/
def processRecording (hasKey : Bool) (whisper gpt : Except String String)
    (loc : Option Geo) (savePressed : Bool)
    (contributions : List (String × ContributionRecord)) (timestamp : String) :
    PipelineResult :=
  let tr := transcribe_audio hasKey whisper
  let idle : Outcome → PipelineResult := fun oc =>
    { contributions := contributions, persisted := false, audioFiles := []
      tempWritten := tr.tempWritten, tempRemoved := tr.tempRemoved, outcome := oc }
  match tr.text with
  | none => idle .transcriptionFailed
  | some transcribed =>
    match summarize_text_for_title_desc hasKey gpt with
    | (some title, some descr) =>
      if title ≠ "" ∧ descr ≠ "" then
        match loc with
        | some g =>
          match g.latitude with
          | some lat =>
            if lat ≠ 0 then
              if savePressed then
                let audioName := timestamp ++ ".wav"
                let cid := "contribution_" ++ toString (contributions.length + 1)
                let record : ContributionRecord :=
                  { title := title, descr := descr
                    transcribed_text := transcribed
                    latitude := lat, longitude := g.longitude
                    audio_file := "audio_contributions/" ++ audioName
                    timestamp := timestamp }
                { contributions := dictSet contributions cid record
                  persisted := true
                  audioFiles := [audioName]
                  tempWritten := tr.tempWritten, tempRemoved := tr.tempRemoved
                  outcome := .saved }
              else idle .awaitingSave
            else idle .locationMissing
          | none => idle .locationMissing
        | none => idle .locationMissing
      else idle .summarizationFailed
    | (_, _) => idle .summarizationFailed

/-! ## Supporting lemmas -/

theorem dropWhile_eq_nil_of_all {p : Char → Bool} {l : List Char}
    (h : ∀ c ∈ l, p c) : l.dropWhile p = [] := by
  induction l with
  | nil => rfl
  | cons c l ih =>
    rw [List.dropWhile_cons, if_pos (h c (List.mem_cons_self c l))]
    exact ih fun c' hc' => h c' (List.mem_cons_of_mem _ hc')

theorem pyStrip_of_all_space {s : String} (h : ∀ c ∈ s.data, isPySpace c) :
    pyStrip s = "" := by
  unfold pyStrip
  rw [dropWhile_eq_nil_of_all h]
  rfl

theorem revIndex_nomatch (l : Dict) (acc : Dict) (x : String)
    (h : ∀ p ∈ l, pyLower p.2 ≠ x) :
    dictGet (l.foldl (fun a p => dictSet a (pyLower p.2) p.1) acc) x
      = dictGet acc x := by
  induction l generalizing acc with
  | nil => rfl
  | cons p rest ih =>
    rw [List.foldl_cons,
      ih _ fun q hq => h q (List.mem_cons_of_mem _ hq)]
    exact dictGet_dictSet_ne acc (pyLower p.2) x p.1
      fun he => h p (List.mem_cons_self _ _) he.symm

theorem revIndex_found (l : Dict) (acc : Dict) (x k : String)
    (hex : ∃ p ∈ l, pyLower p.2 = x)
    (hall : ∀ p ∈ l, pyLower p.2 = x → p.1 = k) :
    dictGet (l.foldl (fun a p => dictSet a (pyLower p.2) p.1) acc) x
      = some k := by
  induction l generalizing acc with
  | nil => simp at hex
  | cons p rest ih =>
    rw [List.foldl_cons]
    by_cases hrest : ∃ q ∈ rest, pyLower q.2 = x
    · exact ih _ hrest fun q hq hqx => hall q (List.mem_cons_of_mem _ hq) hqx
    · have hmatch : pyLower p.2 = x := by
        obtain ⟨q, hq, hqx⟩ := hex
        rcases List.mem_cons.mp hq with h1 | h2
        · rw [← h1]; exact hqx
        · exact absurd ⟨q, h2, hqx⟩ hrest
      have hnone : ∀ q ∈ rest, pyLower q.2 ≠ x := by
        push_neg at hrest
        exact hrest
      rw [revIndex_nomatch rest _ x hnone, hmatch, dictGet_dictSet_self]
      rw [hall p (List.mem_cons_self _ _) hmatch]

theorem mergeRow_preserves (db : Dict) (r : RemoteRow) (k : String) (v : String)
    (h : dictGet db k = some v) : dictGet (mergeRow db r) k = some v := by
  unfold mergeRow
  by_cases hs : (dictGet db (pyLower r.phrase)).isSome
  · rw [if_pos hs]; exact h
  · rw [if_neg hs]
    have hne : k ≠ pyLower r.phrase := by
      rintro rfl
      rw [h] at hs
      exact hs rfl
    rw [dictGet_dictSet_ne db (pyLower r.phrase) k r.translation hne]
    exact h

theorem merge_preserves (rows : List RemoteRow) (db : Dict) (k v : String)
    (h : dictGet db k = some v) :
    dictGet (pull_and_merge db rows) k = some v := by
  induction rows generalizing db with
  | nil => exact h
  | cons r rest ih =>
    exact ih (mergeRow db r) (mergeRow_preserves db r k v h)

theorem merge_inserts (rows : List RemoteRow) : ∀ (db : Dict), ∀ r ∈ rows,
    dictGet db (pyLower r.phrase) = none →
    ∃ r' ∈ rows, pyLower r'.phrase = pyLower r.phrase ∧
      dictGet (pull_and_merge db rows) (pyLower r.phrase)
        = some r'.translation := by
  induction rows with
  | nil => intro db r hr; simp at hr
  | cons r0 rest ih =>
    intro db r hr habs
    by_cases h0 : pyLower r0.phrase = pyLower r.phrase
    · have hins : dictGet (mergeRow db r0) (pyLower r.phrase)
          = some r0.translation := by
        unfold mergeRow
        rw [h0, habs]
        simp [dictGet_dictSet_self]
      exact ⟨r0, List.mem_cons_self _ _, h0,
        merge_preserves rest (mergeRow db r0) _ _ hins⟩
    · have habs' : dictGet (mergeRow db r0) (pyLower r.phrase) = none := by
        unfold mergeRow
        by_cases hs : (dictGet db (pyLower r0.phrase)).isSome
        · rw [if_pos hs]; exact habs
        · rw [if_neg hs,
            dictGet_dictSet_ne db (pyLower r0.phrase) _ r0.translation
              fun he => h0 he.symm]
          exact habs
      have hrrest : r ∈ rest := by
        rcases List.mem_cons.mp hr with h1 | h2
        · exact absurd (by rw [h1]) h0
        · exact h2
      obtain ⟨r', hr', hr'x, hget⟩ := ih (mergeRow db r0) r hrrest habs'
      exact ⟨r', List.mem_cons_of_mem _ hr', hr'x, hget⟩

theorem escapeChar_length_pos (c : Char) : 1 ≤ (escapeChar c).length := by
  unfold escapeChar
  repeat' split
  all_goals simp

theorem length_le_flatMap_escape (l : List Char) :
    l.length ≤ (l.flatMap escapeChar).length := by
  induction l with
  | nil => simp
  | cons c l ih =>
    rw [List.flatMap_cons, List.length_cons, List.length_append]
    have := escapeChar_length_pos c
    omega

theorem hexVal_hexDigit (n : Nat) (h : n < 16) : hexVal (hexDigit n) = some n := by
  interval_cases n <;> decide

theorem hex4_00 (n : Nat) (h : n < 32) :
    hex4 '0' '0' (hexDigit (n / 16)) (hexDigit (n % 16)) = some n := by
  have h1 : hexVal (hexDigit (n / 16)) = some (n / 16) :=
    hexVal_hexDigit _ (by omega)
  have h2 : hexVal (hexDigit (n % 16)) = some (n % 16) :=
    hexVal_hexDigit _ (by omega)
  unfold hex4
  rw [show hexVal '0' = some 0 from rfl, h1, h2]
  refine congrArg some ?_
  omega

theorem decode_step_quote (f : Nat) (X : List Char) :
    decodeBody (f + 1) ('\"' :: X) = some ([], X) := rfl

theorem decode_step_esc_quote (f : Nat) (X : List Char) :
    decodeBody (f + 1) ('\\' :: '\"' :: X)
      = (decodeBody f X).map fun p => ('\"' :: p.1, p.2) := rfl

theorem decode_step_esc_bslash (f : Nat) (X : List Char) :
    decodeBody (f + 1) ('\\' :: '\\' :: X)
      = (decodeBody f X).map fun p => ('\\' :: p.1, p.2) := rfl

theorem decode_step_esc_n (f : Nat) (X : List Char) :
    decodeBody (f + 1) ('\\' :: 'n' :: X)
      = (decodeBody f X).map fun p => ('\n' :: p.1, p.2) := rfl

theorem decode_step_esc_t (f : Nat) (X : List Char) :
    decodeBody (f + 1) ('\\' :: 't' :: X)
      = (decodeBody f X).map fun p => ('\t' :: p.1, p.2) := rfl

theorem decode_step_esc_r (f : Nat) (X : List Char) :
    decodeBody (f + 1) ('\\' :: 'r' :: X)
      = (decodeBody f X).map fun p => ('\r' :: p.1, p.2) := rfl

theorem decode_step_esc_b (f : Nat) (X : List Char) :
    decodeBody (f + 1) ('\\' :: 'b' :: X)
      = (decodeBody f X).map fun p => ('\x08' :: p.1, p.2) := rfl

theorem decode_step_esc_f (f : Nat) (X : List Char) :
    decodeBody (f + 1) ('\\' :: 'f' :: X)
      = (decodeBody f X).map fun p => ('\x0c' :: p.1, p.2) := rfl

theorem decode_step_esc_u (f : Nat) (d1 d2 : Char) (X : List Char) :
    decodeBody (f + 1) ('\\' :: 'u' :: '0' :: '0' :: d1 :: d2 :: X)
      = match hex4 '0' '0' d1 d2 with
        | some n => (decodeBody f X).map fun p => (Char.ofNat n :: p.1, p.2)
        | none => none := rfl

theorem decode_step_plain (f : Nat) (c : Char) (X : List Char)
    (h1 : c ≠ '\"') (h2 : c ≠ '\\') :
    decodeBody (f + 1) (c :: X)
      = (decodeBody f X).map fun p => (c :: p.1, p.2) := by
  simp only [decodeBody, if_neg h1, if_neg h2]

theorem decodeBody_enc (l : List Char) : ∀ (fuel : Nat) (rest : List Char),
    l.length + 1 ≤ fuel →
    decodeBody fuel (l.flatMap escapeChar ++ '\"' :: rest) = some (l, rest) := by
  induction l with
  | nil =>
    intro fuel rest hf
    match fuel, hf with
    | f + 1, _ => simp [decode_step_quote]
  | cons c l' ih =>
    intro fuel rest hf
    match fuel, hf with
    | f + 1, hf =>
      have hf' : l'.length + 1 ≤ f := by
        simp only [List.length_cons] at hf
        omega
      have ihf := ih f rest hf'
      rw [List.flatMap_cons, List.append_assoc]
      by_cases h1 : c = '\"'
      · subst h1
        rw [show escapeChar '\"' = ['\\', '\"'] from rfl]
        simp only [List.cons_append, List.nil_append]
        rw [decode_step_esc_quote, ihf]
        rfl
      by_cases h2 : c = '\\'
      · subst h2
        rw [show escapeChar '\\' = ['\\', '\\'] from rfl]
        simp only [List.cons_append, List.nil_append]
        rw [decode_step_esc_bslash, ihf]
        rfl
      by_cases h3 : c = '\n'
      · subst h3
        rw [show escapeChar '\n' = ['\\', 'n'] from rfl]
        simp only [List.cons_append, List.nil_append]
        rw [decode_step_esc_n, ihf]
        rfl
      by_cases h4 : c = '\t'
      · subst h4
        rw [show escapeChar '\t' = ['\\', 't'] from rfl]
        simp only [List.cons_append, List.nil_append]
        rw [decode_step_esc_t, ihf]
        rfl
      by_cases h5 : c = '\r'
      · subst h5
        rw [show escapeChar '\r' = ['\\', 'r'] from rfl]
        simp only [List.cons_append, List.nil_append]
        rw [decode_step_esc_r, ihf]
        rfl
      by_cases h6 : c = '\x08'
      · subst h6
        rw [show escapeChar '\x08' = ['\\', 'b'] from rfl]
        simp only [List.cons_append, List.nil_append]
        rw [decode_step_esc_b, ihf]
        rfl
      by_cases h7 : c = '\x0c'
      · subst h7
        rw [show escapeChar '\x0c' = ['\\', 'f'] from rfl]
        simp only [List.cons_append, List.nil_append]
        rw [decode_step_esc_f, ihf]
        rfl
      by_cases h8 : c.toNat < 32
      · have hesc : escapeChar c
            = ['\\', 'u', '0', '0', hexDigit (c.toNat / 16),
               hexDigit (c.toNat % 16)] := by
          unfold escapeChar
          rw [if_neg h1, if_neg h2, if_neg h3, if_neg h4, if_neg h5,
            if_neg h6, if_neg h7, if_pos h8]
        rw [hesc]
        simp only [List.cons_append, List.nil_append]
        rw [decode_step_esc_u, hex4_00 c.toNat h8, ihf]
        simp
      · have hesc : escapeChar c = [c] := by
          unfold escapeChar
          rw [if_neg h1, if_neg h2, if_neg h3, if_neg h4, if_neg h5,
            if_neg h6, if_neg h7, if_neg h8]
        rw [hesc]
        simp only [List.cons_append, List.nil_append]
        rw [decode_step_plain f c _ h1 h2, ihf]
        rfl

theorem parseJString_enc (s : String) (rest : List Char) :
    parseJString (encString s ++ rest) = some (s, rest) := by
  have hshape : encString s ++ rest
      = '\"' :: (s.data.flatMap escapeChar ++ '\"' :: rest) := by
    simp [encString]
  rw [hshape]
  show (decodeBody ((s.data.flatMap escapeChar ++ '\"' :: rest).length + 1)
      (s.data.flatMap escapeChar ++ '\"' :: rest)).map
        (fun p => (⟨p.1⟩, p.2)) = some (s, rest)
  rw [decodeBody_enc s.data _ rest (by
    have := length_le_flatMap_escape s.data
    simp only [List.length_append, List.length_cons]
    omega)]
  rfl

theorem skipWS_nl (l : List Char) : skipWS ('\n' :: l) = skipWS l := rfl

theorem skipWS_space (l : List Char) : skipWS (' ' :: l) = skipWS l := rfl

theorem skipWS_quote (l : List Char) : skipWS ('\"' :: l) = '\"' :: l := rfl

theorem skipWS_comma (l : List Char) : skipWS (',' :: l) = ',' :: l := rfl

theorem skipWS_colon (l : List Char) : skipWS (':' :: l) = ':' :: l := rfl

theorem skipWS_rbrace (l : List Char) : skipWS ('\x7d' :: l) = '\x7d' :: l := rfl

theorem skipWS_lbrace (l : List Char) : skipWS ('\x7b' :: l) = '\x7b' :: l := rfl

theorem skipWS_enc (s : String) (X : List Char) :
    skipWS (encString s ++ X) = encString s ++ X := by
  simp only [encString, List.cons_append]
  exact skipWS_quote _

theorem skipWS_entry (p : String × String) (X : List Char) :
    skipWS (entryChars p ++ X)
      = encString p.1 ++ ':' :: ' ' :: (encString p.2 ++ X) := by
  simp only [entryChars, List.cons_append, List.append_assoc]
  rw [skipWS_space, skipWS_space, skipWS_space, skipWS_space]
  exact skipWS_enc p.1 _

theorem parseMember_step (p : String × String) (X : List Char) (f : Nat) :
    parseMembers (f + 1) ('\n' :: (entryChars p ++ X))
      = (match skipWS X with
         | [] => none
         | c2 :: r5 =>
           if c2 = ',' then
             match parseMembers f r5 with
             | some (rest, r6) => some ((p.1, p.2) :: rest, r6)
             | none => none
           else if c2 = '\x7d' then some ([(p.1, p.2)], r5)
           else none) := by
  have hskip : skipWS ('\n' :: (entryChars p ++ X))
      = encString p.1 ++ ':' :: ' ' :: (encString p.2 ++ X) := by
    rw [skipWS_nl]
    exact skipWS_entry p X
  simp only [parseMembers, hskip, parseJString_enc, skipWS_colon]
  simp [skipWS_space, skipWS_enc, parseJString_enc]

theorem membersChars_length_ge (l : Dict) : l.length ≤ (membersChars l).length := by
  induction l with
  | nil => simp [membersChars]
  | cons p t ih =>
    cases t with
    | nil => simp [membersChars, entryChars]
    | cons q t' =>
      rw [show membersChars (p :: q :: t')
          = entryChars p ++ ',' :: '\n' :: membersChars (q :: t') from rfl]
      simp only [List.length_append, List.length_cons]
      have := ih
      simp only [List.length_cons] at this ⊢
      omega

theorem parseMembers_enc (l : Dict) : ∀ (fuel : Nat) (rest : List Char),
    l ≠ [] → l.length ≤ fuel →
    parseMembers fuel ('\n' :: (membersChars l ++ '\n' :: '\x7d' :: rest))
      = some (l, rest) := by
  induction l with
  | nil => intro fuel rest h _; exact absurd rfl h
  | cons p t ih =>
    intro fuel rest _ hf
    match fuel, hf with
    | f + 1, hf =>
      cases t with
      | nil =>
        rw [show membersChars [p] = entryChars p from rfl,
          parseMember_step p ('\n' :: '\x7d' :: rest) f,
          skipWS_nl, skipWS_rbrace]
        simp
      | cons q t' =>
        rw [show membersChars (p :: q :: t')
            = entryChars p ++ ',' :: '\n' :: membersChars (q :: t') from rfl]
        rw [show ((entryChars p ++ ',' :: '\n' :: membersChars (q :: t'))
              ++ '\n' :: '\x7d' :: rest)
            = entryChars p
              ++ ',' :: '\n' :: (membersChars (q :: t') ++ '\n' :: '\x7d' :: rest)
          from by simp [List.cons_append, List.append_assoc]]
        rw [parseMember_step p _ f, skipWS_comma]
        have hlen : (q :: t').length ≤ f := by
          simp only [List.length_cons] at hf ⊢
          omega
        simp [ih f rest (by simp) hlen]

theorem skipWS_nil : skipWS [] = [] := rfl

theorem skipWS_members_head (p : String × String) (t : Dict) (B : List Char) :
    ∃ Z, skipWS (membersChars (p :: t) ++ B) = '\"' :: Z := by
  cases t with
  | nil =>
    rw [show membersChars [p] = entryChars p from rfl, skipWS_entry]
    refine ⟨p.1.data.flatMap escapeChar
      ++ '\"' :: ':' :: ' ' :: '\"' :: (p.2.data.flatMap escapeChar ++ '\"' :: B),
      ?_⟩
    simp [encString]
  | cons q t' =>
    rw [show membersChars (p :: q :: t')
        = entryChars p ++ ',' :: '\n' :: membersChars (q :: t') from rfl,
      List.append_assoc, skipWS_entry]
    refine ⟨p.1.data.flatMap escapeChar
      ++ '\"' :: ':' :: ' ' :: '\"' :: (p.2.data.flatMap escapeChar
        ++ '\"' :: ',' :: '\n' :: (membersChars (q :: t') ++ B)), ?_⟩
    simp [encString]

theorem parse_save (d : Dict) : parseTopLevel (save_database d).data = some d := by
  cases d with
  | nil => rfl
  | cons p t =>
    show parseTopLevel ('\x7b' :: '\n' :: membersChars (p :: t)
        ++ '\n' :: '\x7d' :: []) = some (p :: t)
    unfold parseTopLevel
    rw [show ('\x7b' :: '\n' :: membersChars (p :: t) ++ '\n' :: '\x7d' :: [])
        = '\x7b' :: ('\n' :: (membersChars (p :: t) ++ '\n' :: '\x7d' :: []))
      from by simp]
    rw [skipWS_lbrace]
    obtain ⟨Z, hZ⟩ := skipWS_members_head p t ('\n' :: '\x7d' :: [])
    simp only [if_pos rfl, skipWS_nl, hZ]
    rw [parseMembers_enc (p :: t) _ [] (by simp) (by
      have := membersChars_length_ge (p :: t)
      simp only [List.length_cons, List.length_append] at this ⊢
      omega)]
    simp [skipWS_nil]

theorem flatMap_escape_id (l : List Char)
    (h : ∀ c ∈ l, 32 ≤ c.toNat ∧ c ≠ '\"' ∧ c ≠ '\\') :
    l.flatMap escapeChar = l := by
  induction l with
  | nil => rfl
  | cons c t ih =>
    obtain ⟨h32, hq, hb⟩ := h c (List.mem_cons_self _ _)
    have hesc : escapeChar c = [c] := by
      unfold escapeChar
      rw [if_neg hq, if_neg hb,
        if_neg (by rintro rfl; exact absurd h32 (by decide)),
        if_neg (by rintro rfl; exact absurd h32 (by decide)),
        if_neg (by rintro rfl; exact absurd h32 (by decide)),
        if_neg (by rintro rfl; exact absurd h32 (by decide)),
        if_neg (by rintro rfl; exact absurd h32 (by decide)),
        if_neg (by omega)]
    rw [List.flatMap_cons, hesc,
      ih fun c' hc' => h c' (List.mem_cons_of_mem _ hc')]
    rfl

/-! ## Claim theorems -/

/-- C1: for a phrase entry `(k, v)` in the store with `k` in trimmed
lowercase form, `v` trimmed, and no other entry whose value lowercases to
the same string as `v`, the forward query on `k` returns `v` and the
reverse query on `v` returns `k`. -/
theorem forward_reverse_round_trip (db : Dict) (k v : String)
    (hget : dictGet db k = some v)
    (hk : pyLower (pyStrip k) = k)
    (hv : pyStrip v = v)
    (huniq : ∀ p ∈ db, p ≠ (k, v) → pyLower p.2 ≠ pyLower v) :
    query_forward db k = v ∧ query_reverse db v = k := by
  constructor
  · simp [query_forward, hk, hget]
  · have hmem : (k, v) ∈ db := mem_of_dictGet hget
    have hall : ∀ p ∈ db, pyLower p.2 = pyLower v → p.1 = k := by
      intro p hp hpx
      by_cases hpe : p = (k, v)
      · rw [hpe]
      · exact absurd hpx (huniq p hp hpe)
    have hfound : dictGet (reverseIndex db) (pyLower v) = some k :=
      revIndex_found db [] (pyLower v) k ⟨(k, v), hmem, rfl⟩ hall
    simp [query_reverse, reverseIndex] at hfound ⊢
    simp [hv, hfound]

/-- C1 witness: the round trip on a concrete one-entry store. -/
theorem forward_reverse_round_trip_witness :
    query_forward [("chalega", "It will work")] "chalega" = "It will work" ∧
    query_reverse [("chalega", "It will work")] "It will work" = "chalega" :=
  forward_reverse_round_trip [("chalega", "It will work")]
    "chalega" "It will work" (by decide) (by decide) (by decide) (by decide)

/-- C3: `pull_and_merge` never overwrites a key already present in the local
mapping — every key bound before the merge keeps its original value, even if
a remote row carries the same key with a different translation — and every
remote row whose (lowercased) key is absent locally gets inserted with a
matching remote row's translation.  The merge logic is modelled from the
spec; it is not part of `src/jugaadu_translator.py`. -/
theorem pull_and_merge_never_overwrites (db : Dict) (rows : List RemoteRow) :
    (∀ k v, dictGet db k = some v →
      dictGet (pull_and_merge db rows) k = some v) ∧
    (∀ r ∈ rows, dictGet db (pyLower r.phrase) = none →
      ∃ r' ∈ rows, pyLower r'.phrase = pyLower r.phrase ∧
        dictGet (pull_and_merge db rows) (pyLower r.phrase)
          = some r'.translation) :=
  ⟨fun k v h => merge_preserves rows db k v h, merge_inserts rows db⟩

/-- C3 witness: local `{"a": "X"}` merged with remote rows `("a", "Y")` and
`("b", "Z")` keeps `"a" → "X"` and gains a translation for `"b"`. -/
theorem pull_and_merge_never_overwrites_witness :
    dictGet (pull_and_merge [("a", "X")]
        [⟨"a", "Y", "t1", "India"⟩, ⟨"b", "Z", "t2", "Unknown"⟩]) "a"
      = some "X" ∧
    (∃ r' ∈ ([⟨"a", "Y", "t1", "India"⟩, ⟨"b", "Z", "t2", "Unknown"⟩] :
          List RemoteRow),
      pyLower r'.phrase = pyLower "b" ∧
        dictGet (pull_and_merge [("a", "X")]
            [⟨"a", "Y", "t1", "India"⟩, ⟨"b", "Z", "t2", "Unknown"⟩])
            (pyLower "b")
          = some r'.translation) :=
  ⟨(pull_and_merge_never_overwrites [("a", "X")]
      [⟨"a", "Y", "t1", "India"⟩, ⟨"b", "Z", "t2", "Unknown"⟩]).1
      "a" "X" (by decide),
   (pull_and_merge_never_overwrites [("a", "X")]
      [⟨"a", "Y", "t1", "India"⟩, ⟨"b", "Z", "t2", "Unknown"⟩]).2
      ⟨"b", "Z", "t2", "Unknown"⟩ (by decide) (by decide)⟩

/-- C2: contributing a local phrase stores it under its trimmed, lowercased
form as key — contributing `"  Kaisa Hai? "` stores the key `"kaisa hai?"` —
and a forward query normalises its input the same way, so querying
`"KAISA HAI?"` matches that entry and returns the stored (trimmed) standard
phrase. -/
theorem contribute_normalizes (db : Dict) (std : String) (hstd : std ≠ "") :
    dictGet (contribution_form db "  Kaisa Hai? " std).db "kaisa hai?"
        = some (pyStrip std) ∧
    query_forward (contribution_form db "  Kaisa Hai? " std).db "KAISA HAI?"
        = pyStrip std := by
  have hk1 : pyLower (pyStrip "  Kaisa Hai? ") = "kaisa hai?" := by decide
  have hk2 : pyLower (pyStrip "KAISA HAI?") = "kaisa hai?" := by decide
  have hne : ("  Kaisa Hai? " : String) ≠ "" := by decide
  unfold contribution_form
  rw [if_pos ⟨hne, hstd⟩]
  constructor
  · simpa [hk1] using
      dictGet_dictSet_self db (pyLower (pyStrip "  Kaisa Hai? ")) (pyStrip std)
  · simp [query_forward, hk1, hk2, dictGet_dictSet_self]

/-- C2 witness: a concrete instance of the normalisation round trip. -/
theorem contribute_normalizes_witness :
    dictGet (contribution_form [] "  Kaisa Hai? " "How are you?").db "kaisa hai?"
        = some (pyStrip "How are you?") ∧
    query_forward (contribution_form [] "  Kaisa Hai? " "How are you?").db "KAISA HAI?"
        = pyStrip "How are you?" :=
  contribute_normalizes [] "How are you?" (by decide)

/-- C4 counterexample: with no durable copy (`os.path.exists` false),
`load_database` returns the empty mapping — it does not seed a non-empty
starter set. -/
theorem load_database_no_seed_counterexample : ¬ load_database none ≠ [] :=
  fun h => h rfl

/-- C4 (amended): when no durable copy of the phrase store exists,
`load_database` returns the empty mapping, seeding and persisting nothing. -/
theorem load_database_missing_file_empty : load_database none = [] := rfl

/-- C5 counterexample: with transcription and summarization both successful
but the geolocation provider returning no coordinates, the handler ends in
the location warning and no record is created, whether or not the save
button is pressed — the save transition is not reachable. -/
theorem geolocation_blocks_save_counterexample :
    (processRecording true (.ok "hello") (.ok "Title: T\nDescription: D")
        none true [] "20250101_120000").outcome = Outcome.locationMissing ∧
    (processRecording true (.ok "hello") (.ok "Title: T\nDescription: D")
        none true [] "20250101_120000").contributions = [] ∧
    (processRecording true (.ok "hello") (.ok "Title: T\nDescription: D")
        none false [] "20250101_120000").outcome = Outcome.locationMissing := by
  refine ⟨?_, ?_, ?_⟩ <;> rfl

/-- C5 (amended): absence of geolocation blocks saving — whenever the
truthiness test `location and location.get('latitude')` fails, the handler
never reaches the saved state, appends no record, persists nothing and
writes no timestamped audio file. -/
theorem geolocation_blocks_save (hasKey : Bool) (whisper gpt : Except String String)
    (loc : Option Geo) (savePressed : Bool)
    (contributions : List (String × ContributionRecord)) (ts : String)
    (hloc : geoTruthy loc = false) :
    (processRecording hasKey whisper gpt loc savePressed contributions ts).outcome
        ≠ Outcome.saved ∧
    (processRecording hasKey whisper gpt loc savePressed contributions ts).contributions
        = contributions ∧
    (processRecording hasKey whisper gpt loc savePressed contributions ts).persisted
        = false ∧
    (processRecording hasKey whisper gpt loc savePressed contributions ts).audioFiles
        = [] := by
  unfold processRecording
  refine ⟨?_, ?_, ?_, ?_⟩ <;> (repeat' split) <;>
    (try cases htr : (transcribe_audio hasKey whisper).text) <;>
    simp_all [geoTruthy]

/-- C5 witness for the amended claim: a concrete run with no geolocation. -/
theorem geolocation_blocks_save_witness :
    (processRecording true (.ok "namaste") (.ok "Title: T\nDescription: D")
        none true [] "20250101_130000").outcome ≠ Outcome.saved ∧
    (processRecording true (.ok "namaste") (.ok "Title: T\nDescription: D")
        none true [] "20250101_130000").contributions = [] ∧
    (processRecording true (.ok "namaste") (.ok "Title: T\nDescription: D")
        none true [] "20250101_130000").persisted = false ∧
    (processRecording true (.ok "namaste") (.ok "Title: T\nDescription: D")
        none true [] "20250101_130000").audioFiles = [] :=
  geolocation_blocks_save true (.ok "namaste") (.ok "Title: T\nDescription: D")
    none true [] "20250101_130000" rfl

/-- C6: when the summarizer's combined response has no second line, the
parser does default the description to the empty string, but the handler's
`if title and description:` gate treats the empty string as falsy, so the
attempt ends in "Could not generate a title and description" and the
contribution cannot reach the saved state — contradicting the intent that
the empty default lets the pipeline proceed. -/
theorem empty_description_blocks_save :
    summarize_text_for_title_desc true (.ok "Title: Chai Money")
        = (some "Chai Money", some "") ∧
    (processRecording true (.ok "hello") (.ok "Title: Chai Money")
        (some ⟨some 19, some 72⟩) true [] "20250101_120000").outcome
        = Outcome.summarizationFailed ∧
    (processRecording true (.ok "hello") (.ok "Title: Chai Money")
        (some ⟨some 19, some 72⟩) true [] "20250101_120000").contributions = [] ∧
    (processRecording true (.ok "hello") (.ok "Title: Chai Money")
        (some ⟨some 19, some 72⟩) true [] "20250101_120000").audioFiles = [] := by
  refine ⟨?_, ?_, ?_, ?_⟩ <;> rfl

/-- C7: if summarization fails (returns no title and no description), the
handler appends no contribution record, persists nothing and writes no
timestamped audio artifact. -/
theorem summarization_failure_all_or_nothing (hasKey : Bool)
    (whisper gpt : Except String String) (loc : Option Geo) (savePressed : Bool)
    (contributions : List (String × ContributionRecord)) (ts : String)
    (hfail : summarize_text_for_title_desc hasKey gpt = (none, none)) :
    (processRecording hasKey whisper gpt loc savePressed contributions ts).contributions
        = contributions ∧
    (processRecording hasKey whisper gpt loc savePressed contributions ts).persisted
        = false ∧
    (processRecording hasKey whisper gpt loc savePressed contributions ts).audioFiles
        = [] := by
  unfold processRecording
  cases htr : (transcribe_audio hasKey whisper).text with
  | none => simp [htr]
  | some t => simp [htr, hfail]

/-- C7 witness: a concrete failing summarization leaves everything alone. -/
theorem summarization_failure_all_or_nothing_witness :
    (processRecording true (.ok "hi") (.error "api down")
        (some ⟨some 1, some 2⟩) true [] "20250101_120000").contributions = [] ∧
    (processRecording true (.ok "hi") (.error "api down")
        (some ⟨some 1, some 2⟩) true [] "20250101_120000").persisted = false ∧
    (processRecording true (.ok "hi") (.error "api down")
        (some ⟨some 1, some 2⟩) true [] "20250101_120000").audioFiles = [] :=
  summarization_failure_all_or_nothing true (.ok "hi") (.error "api down")
    (some ⟨some 1, some 2⟩) true [] "20250101_120000" rfl

/-- C9: the contribution form's `if local_phrase and standard_english_phrase:`
only rejects empty strings; any pair of whitespace-only (hence truthy)
inputs is accepted, and the stored and persisted entry has the empty string
as key (and as value). -/
theorem whitespace_only_inputs_accepted (db : Dict) (lp sp : String)
    (h1 : lp ≠ "") (h2 : sp ≠ "")
    (hw1 : ∀ c ∈ lp.data, isPySpace c) (hw2 : ∀ c ∈ sp.data, isPySpace c) :
    (contribution_form db lp sp).accepted = true ∧
    (contribution_form db lp sp).persisted = true ∧
    dictGet (contribution_form db lp sp).db "" = some "" := by
  have hlp : pyStrip lp = "" := pyStrip_of_all_space hw1
  have hsp : pyStrip sp = "" := pyStrip_of_all_space hw2
  unfold contribution_form
  rw [if_pos ⟨h1, h2⟩]
  refine ⟨rfl, rfl, ?_⟩
  have : pyLower (pyStrip lp) = "" := by rw [hlp]; rfl
  simp only [this, hsp]
  exact dictGet_dictSet_self db "" ""

/-- C9 witness: a space and a tab pass validation and store the empty key. -/
theorem whitespace_only_inputs_accepted_witness :
    (contribution_form [] " " "\t").accepted = true ∧
    (contribution_form [] " " "\t").persisted = true ∧
    dictGet (contribution_form [] " " "\t").db "" = some "" :=
  whitespace_only_inputs_accepted [] " " "\t" (by decide) (by decide)
    (by decide) (by decide)

/-- C8: saving a mapping with `save_database` and loading the written file
with `load_database` yields the mapping back, and strings made of unescaped
characters — in particular all non-ASCII text — are written verbatim, with
no escaping or mangling. -/
theorem save_load_round_trip (d : Dict) (_hnodup : (d.map Prod.fst).Nodup) :
    load_database (some (save_database d)) = d ∧
    (∀ s : String, (∀ c ∈ s.data, 32 ≤ c.toNat ∧ c ≠ '\"' ∧ c ≠ '\\') →
      encString s = '\"' :: (s.data ++ ['\"'])) := by
  constructor
  · show (parseTopLevel (save_database d).data).getD [] = d
    rw [parse_save]
    rfl
  · intro s hs
    simp [encString, flatMap_escape_id s.data hs]

/-- C8 witness: a concrete round trip through the JSON file format, with
Devanagari text preserved exactly. -/
theorem save_load_round_trip_witness :
    load_database (some (save_database [("chalega", "चलेगा \"ok\"")]))
      = [("chalega", "चलेगा \"ok\"")] ∧
    encString "चलेगा" = '\"' :: ("चलेगा".data ++ ['\"']) :=
  ⟨(save_load_round_trip [("chalega", "चलेगा \"ok\"")] (by decide)).1,
   (save_load_round_trip [("chalega", "चलेगा \"ok\"")] (by decide)).2
     "चलेगा" (by decide)⟩

/-- C10: when the speech-to-text call raises, `transcribe_audio` returns
`None`, and the temporary file `audio_contributions/temp_recording.wav`,
written before the call, is not removed — the failure path leaves the audio
directory changed. -/
theorem transcription_failure_leaves_temp_file (e : String) :
    transcribe_audio true (.error e)
        = { text := none, tempWritten := true, tempRemoved := false } :=
  rfl

end JugaaduTranslator
